import Mathlib

/-!
Shallow embedding of the viam-roomba driver (Go) and proofs about it.

The embedding models:
* the base component's motion methods MoveStraight, Spin and SetVelocity
  (flush_linux.go, middle document: the `viamroomba` base implementation),
* the completion paths of the blocking motion calls (the select over the
  duration timer, the caller context and the driver shutdown context),
* the sensor component's Readings decoder (unnamed/part_005),
* the process-wide ref-counted connection registry acquireConn/releaseConn.

Numeric conventions: Go float64 values are modelled as rationals (float
arithmetic treated as exact), Go int16 values as integers together with an
explicit wrap modulo 2^16 at each conversion site, bytes as naturals.
-/

namespace ViamRoomba

/-- Two's-complement wrap of an integer into the int16 range
[-32768, 32767], modelling Go's truncating conversions to int16. -/
def wrap16 (n : ℤ) : ℤ := (n + 32768) % 65536 - 32768

/-- Truncation of a rational toward zero, the rounding used by Go's
float-to-integer conversions. -/
def truncQ (x : ℚ) : ℤ := if 0 ≤ x then ⌊x⌋ else ⌈x⌉

/-- Go's `int16(x)` conversion applied to a float64 `x`: truncate toward
zero, then wrap into the int16 range. The gc compiler performs the
conversion through a wider integer register, so values whose truncation
exceeds the int16 range wrap modulo 2^16 (the Go language specification
leaves the out-of-range result implementation-dependent; this models the
standard gc behavior on amd64 and arm64 for truncations within int32). -/
def int16ofFloat (x : ℚ) : ℤ := wrap16 (truncQ x)

/-- Go's `math.Abs`, written as a conditional so that it evaluates by
kernel reduction; equal to `abs` on rationals. -/
def absQ (x : ℚ) : ℚ := if 0 ≤ x then x else -x

/-- The clamp applied by the driver to drive velocities, mirroring
`if velocity > 500 { velocity = 500 } else if velocity < -500 { velocity = -500 }`. -/
def clamp500 (v : ℤ) : ℤ := if v > 500 then 500 else if v < -500 then -500 else v

/-- The exact rational value of the float64 constant `math.Pi`. -/
def mathPi : ℚ := 884279719003555 / 281474976710656

/-- The wire-level drive command unit: opcode-137 payload of a signed 16-bit
velocity (mm/s) and a signed 16-bit radius (mm, 32767 = straight,
plus or minus 1 = spin in place). -/
structure DriveCommand where
  velocity : ℤ
  radius : ℤ
deriving DecidableEq, Repr

/-- Result of the command-computation part of `MoveStraight`/`Spin`: either
the zero-argument early exit (stop only) or a drive command together with
the blocking duration in seconds. -/
inductive MoveOutcome
  | stopOnly
  | drive (cmd : DriveCommand) (durationSec : ℚ)
deriving DecidableEq, Repr

/-- The issued drive velocity of a `MoveOutcome`, if any. -/
def MoveOutcome.vel : MoveOutcome → Option ℤ
  | .stopOnly => none
  | .drive cmd _ => some cmd.velocity

/-- Command computation of `viamRoombaBase.MoveStraight` (flush_linux.go):
zero distance or speed stops; otherwise duration = |distance / speed|,
velocity = int16(mmPerSec) negated for negative distance and clamped to
[-500, 500], radius = 32767 (drive straight). -/
def moveStraight (distanceMm : ℤ) (mmPerSec : ℚ) : MoveOutcome :=
  if distanceMm = 0 ∨ mmPerSec = 0 then .stopOnly
  else
    let duration : ℚ := absQ ((distanceMm : ℚ) / mmPerSec)
    let velocity0 : ℤ :=
      if 0 < distanceMm then int16ofFloat mmPerSec
      else wrap16 (-(int16ofFloat mmPerSec))
    .drive ⟨clamp500 velocity0, 32767⟩ duration

/-- Command computation of `viamRoombaBase.Spin` (flush_linux.go): zero
angle or speed stops; otherwise duration = |angle / angularSpeed|,
radius = +1 for positive angle (spin in place CCW) and -1 otherwise,
velocity fixed at 100. -/
def spin (angleDeg : ℚ) (degsPerSec : ℚ) : MoveOutcome :=
  if angleDeg = 0 ∨ degsPerSec = 0 then .stopOnly
  else
    let duration : ℚ := absQ (angleDeg / degsPerSec)
    let radius : ℤ := if 0 < angleDeg then 1 else -1
    .drive ⟨100, radius⟩ duration

/-- Result of `SetVelocity`: a stop command or a drive command
(fire-and-forget, no blocking duration). -/
inductive VelOutcome
  | stop
  | drive (cmd : DriveCommand)
deriving DecidableEq, Repr

/-- The issued drive velocity of a `VelOutcome`, if any. -/
def VelOutcome.vel : VelOutcome → Option ℤ
  | .stop => none
  | .drive cmd => some cmd.velocity

/-- The issued drive radius of a `VelOutcome`, if any. -/
def VelOutcome.rad : VelOutcome → Option ℤ
  | .stop => none
  | .drive cmd => some cmd.radius

/-- The linear-branch velocity of `SetVelocity`: Go's `int16(linear.Y)`
followed by the clamp to [-500, 500]. -/
def linVel16 (linearY : ℚ) : ℤ := clamp500 (int16ofFloat linearY)

/-- Command computation of `viamRoombaBase.SetVelocity` (flush_linux.go):
both components zero stops; linear zero with angular nonzero spins in
place with wheel speed min(500, |angular| * pi / 180 * width / 2);
otherwise velocity = clamped int16(linear.Y), and radius = 32767 when
angular is zero, else int16 of (velocity * 180) / (angular * pi) clamped
to [-2000, 2000]. -/
def setVelocity (widthMM : ℤ) (linearY : ℚ) (angularZ : ℚ) : VelOutcome :=
  if linearY = 0 ∧ angularZ = 0 then .stop
  else if linearY = 0 ∧ angularZ ≠ 0 then
    let angularRadPerSec : ℚ := |angularZ| * mathPi / 180
    let wheelSpeed : ℚ := angularRadPerSec * (widthMM : ℚ) / 2
    let velocity : ℤ := int16ofFloat (min 500 wheelSpeed)
    let radius : ℤ := if 0 < angularZ then 1 else -1
    .drive ⟨velocity, radius⟩
  else
    let velocity : ℤ := linVel16 linearY
    let radius : ℤ :=
      if angularZ = 0 then 32767
      else int16ofFloat (max (-2000) (min 2000 (((velocity : ℚ) * 180) / (angularZ * mathPi))))
    .drive ⟨velocity, radius⟩

/-- The cause that ends the blocking wait of `MoveStraight`/`Spin`: the
duration timer expiring, the caller's context being cancelled (or reaching
its deadline), or the driver's own shutdown context firing. These are the
three branches of the select statement in flush_linux.go. -/
inductive CompletionCause
  | durationExpired
  | callerCancelled
  | driverShutdown

/-- A wire-level command relevant to motion: a drive frame or a stop. -/
inductive WireCmd
  | drive (velocity radius : ℤ)
  | stop
deriving DecidableEq, Repr

/-- The sequence of wire commands issued by a blocking motion call
(`MoveStraight` or `Spin`), as a function of its computed outcome, whether
the initial drive write succeeded, and which completion event fired first.
The zero-argument early exit issues a single stop; a failed drive write
returns the error without a stop; otherwise every select branch issues a
stop before the call returns. -/
def motionTrace (out : MoveOutcome) (driveOk : Bool) (cause : CompletionCause) : List WireCmd :=
  match out with
  | .stopOnly => [WireCmd.stop]
  | .drive cmd _ =>
    if driveOk then
      match cause with
      | .durationExpired => [WireCmd.drive cmd.velocity cmd.radius, WireCmd.stop]
      | .callerCancelled => [WireCmd.drive cmd.velocity cmd.radius, WireCmd.stop]
      | .driverShutdown => [WireCmd.drive cmd.velocity cmd.radius, WireCmd.stop]
    else [WireCmd.drive cmd.velocity cmd.radius]

lemma wrap16_eq_self {n : ℤ} (h1 : -32768 ≤ n) (h2 : n ≤ 32767) : wrap16 n = n := by
  unfold wrap16; omega

lemma truncQ_of_nonneg {x : ℚ} (h : 0 ≤ x) : truncQ x = ⌊x⌋ := if_pos h

lemma truncQ_neg (x : ℚ) : truncQ (-x) = -(truncQ x) := by
  rcases lt_trichotomy x 0 with h | h | h
  · rw [truncQ, truncQ, if_pos (by linarith), if_neg (by linarith), Int.floor_neg]
  · subst h; simp [truncQ]
  · rw [truncQ, truncQ, if_neg (by linarith), if_pos h.le, Int.ceil_neg]

lemma truncQ_le {x : ℚ} {m : ℤ} (h : x ≤ (m : ℚ)) : truncQ x ≤ m := by
  unfold truncQ; split
  · calc ⌊x⌋ ≤ ⌊(m : ℚ)⌋ := Int.floor_le_floor h
      _ = m := Int.floor_intCast m
  · exact Int.ceil_le.mpr h

lemma le_truncQ {x : ℚ} {m : ℤ} (h : (m : ℚ) ≤ x) : m ≤ truncQ x := by
  unfold truncQ; split
  · exact Int.le_floor.mpr h
  · calc m = ⌈(m : ℚ)⌉ := (Int.ceil_intCast m).symm
      _ ≤ ⌈x⌉ := Int.ceil_le_ceil h

lemma clamp500_eq_500 {n : ℤ} (h : 500 ≤ n) : clamp500 n = 500 := by
  unfold clamp500
  split
  · rfl
  · split <;> omega

lemma clamp500_eq_neg500 {n : ℤ} (h : n ≤ -500) : clamp500 n = -500 := by
  unfold clamp500
  split
  · omega
  · split
    · rfl
    · omega

lemma clamp500_of_nonneg {n : ℤ} (h : 0 ≤ n) : clamp500 n = min n 500 := by
  unfold clamp500
  split
  · omega
  · split <;> omega

lemma clamp500_neg_of_nonneg {n : ℤ} (h : 0 ≤ n) : clamp500 (-n) = -(min n 500) := by
  unfold clamp500
  split
  · omega
  · split <;> omega

lemma floor_bounds {s : ℚ} (h0 : 0 ≤ s) (h2 : s ≤ 32767) : 0 ≤ ⌊s⌋ ∧ ⌊s⌋ ≤ 32767 := by
  constructor
  · exact Int.le_floor.mpr (by exact_mod_cast h0)
  · calc ⌊s⌋ ≤ ⌊(32767 : ℚ)⌋ := Int.floor_le_floor h2
      _ = 32767 := by norm_num

lemma int16ofFloat_eq_floor {s : ℚ} (h0 : 0 ≤ s) (h2 : s ≤ 32767) :
    int16ofFloat s = ⌊s⌋ := by
  obtain ⟨hl, hu⟩ := floor_bounds h0 h2
  rw [int16ofFloat, truncQ_of_nonneg h0, wrap16_eq_self (by omega) (by omega)]

lemma int16ofFloat_neg_eq {s : ℚ} (h0 : 0 ≤ s) (h2 : s ≤ 32767) :
    int16ofFloat (-s) = -⌊s⌋ := by
  obtain ⟨hl, hu⟩ := floor_bounds h0 h2
  rw [int16ofFloat, truncQ_neg, truncQ_of_nonneg h0, wrap16_eq_self (by omega) (by omega)]

/-- C1 counterexample: a forward set-velocity request of 40000 mm/s
(magnitude greater than 500) issues wire velocity -500, not +500: the Go
int16 conversion wraps 40000 to -25536 before the clamp. -/
theorem setVelocity_wrap_cex :
    (setVelocity 235 40000 0).vel = some (-500) ∧
    (setVelocity 235 40000 0).vel ≠ some 500 := by
  decide

/-- C1 (amended): for every speed magnitude s with 500 < s ≤ 32767
(representable in int16), the issued wire velocity is exactly plus or
minus 500: for SetVelocity the sign is the sign of linear.Y, and for
MoveStraight the sign is the product of the signs of distance and speed. -/
theorem vel_overclamp (s : ℚ) (h1 : 500 < s) (h2 : s ≤ 32767) (w d : ℤ) (a : ℚ)
    (hd : 0 < d) :
    (setVelocity w s a).vel = some 500 ∧
    (setVelocity w (-s) a).vel = some (-500) ∧
    (moveStraight d s).vel = some 500 ∧
    (moveStraight d (-s)).vel = some (-500) ∧
    (moveStraight (-d) s).vel = some (-500) ∧
    (moveStraight (-d) (-s)).vel = some 500 := by
  have h0 : (0 : ℚ) < s := by linarith
  have hs0 : s ≠ 0 := h0.ne'
  have hns0 : -s ≠ 0 := by simpa using hs0
  have hfl : 500 ≤ ⌊s⌋ := Int.le_floor.mpr (by exact_mod_cast h1.le)
  have hfu : ⌊s⌋ ≤ 32767 := (floor_bounds h0.le h2).2
  have hi : int16ofFloat s = ⌊s⌋ := int16ofFloat_eq_floor h0.le h2
  have hin : int16ofFloat (-s) = -⌊s⌋ := int16ofFloat_neg_eq h0.le h2
  have hc1 : clamp500 ⌊s⌋ = 500 := clamp500_eq_500 hfl
  have hc2 : clamp500 (-⌊s⌋) = -500 := clamp500_eq_neg500 (by omega)
  have hdn : ¬(0 : ℤ) < -d := by omega
  have hdne : d ≠ 0 := hd.ne'
  have hdne' : -d ≠ 0 := by omega
  refine ⟨?_, ?_, ?_, ?_, ?_, ?_⟩
  · simp only [setVelocity, hs0, false_and, if_false, linVel16, hi, hc1, VelOutcome.vel]
  · simp only [setVelocity, hns0, false_and, if_false, linVel16, hin, hc2, VelOutcome.vel]
  · simp only [moveStraight, hdne, hs0, or_self, if_false, if_pos hd, hi, hc1,
      MoveOutcome.vel]
  · simp only [moveStraight, hdne, hns0, or_self, if_false, if_pos hd, hin, hc2,
      MoveOutcome.vel]
  · rw [moveStraight, if_neg (by tauto)]
    simp only [if_neg hdn, hi, MoveOutcome.vel, Option.some.injEq]
    rw [wrap16_eq_self (by omega) (by omega), hc2]
  · rw [moveStraight, if_neg (by tauto)]
    simp only [if_neg hdn, hin, MoveOutcome.vel, Option.some.injEq]
    rw [neg_neg, wrap16_eq_self (by omega) (by omega), hc1]

/-- C1 witness: the amended clamping theorem applied at s = 600,
width = 235, d = 100, angular = 7. -/
theorem vel_overclamp_witness :
    (500 : ℚ) < 600 ∧ (600 : ℚ) ≤ 32767 ∧ (0 : ℤ) < 100 ∧
    (setVelocity 235 600 7).vel = some 500 ∧
    (moveStraight 100 600).vel = some 500 ∧
    (moveStraight (-100) 600).vel = some (-500) :=
  ⟨by norm_num, by norm_num, by norm_num,
    (vel_overclamp 600 (by norm_num) (by norm_num) 235 100 7 (by norm_num)).1,
    (vel_overclamp 600 (by norm_num) (by norm_num) 235 100 7 (by norm_num)).2.2.1,
    (vel_overclamp 600 (by norm_num) (by norm_num) 235 100 7 (by norm_num)).2.2.2.2.1⟩

/-- C2 counterexample: MoveStraight with distance 100 (positive) and speed
-10 issues wire velocity -10, whose sign is opposite to the sign of the
distance; the claim predicts velocity +10 (distance sign, magnitude 10). -/
theorem moveStraight_sign_cex :
    moveStraight 100 (-10) = MoveOutcome.drive ⟨-10, 32767⟩ 10 ∧
    moveStraight 100 (-10) ≠ MoveOutcome.drive ⟨10, 32767⟩ 10 := by
  have h : moveStraight 100 (-10) = MoveOutcome.drive ⟨-10, 32767⟩ 10 := by
    rw [moveStraight, if_neg (by norm_num)]
    have hi : int16ofFloat (-10 : ℚ) = -10 := by
      rw [int16ofFloat, truncQ_neg]; norm_num [truncQ, wrap16]
    norm_num [hi, clamp500, absQ]
  refine ⟨h, ?_⟩
  rw [h]
  intro hc
  simp only [MoveOutcome.drive.injEq, DriveCommand.mk.injEq] at hc
  exact absurd hc.1.1 (by norm_num)

/-- C2 (amended): for every MoveStraight call with non-zero distance and
positive speed at most 32767, the issued drive command has radius 32767,
velocity of sign equal to the sign of the distance and magnitude the
truncation of the speed clamped to at most 500, and the blocking duration
is |distance / speed| seconds. -/
theorem moveStraight_drive_spec (d : ℤ) (s : ℚ) (hd : d ≠ 0) (h0 : 0 < s)
    (h2 : s ≤ 32767) :
    moveStraight d s =
      MoveOutcome.drive ⟨(if 0 < d then 1 else -1) * min ⌊s⌋ 500, 32767⟩
        (absQ ((d : ℚ) / s)) := by
  have hs0 : s ≠ 0 := h0.ne'
  obtain ⟨hfl, hfu⟩ := floor_bounds h0.le h2
  have hi : int16ofFloat s = ⌊s⌋ := int16ofFloat_eq_floor h0.le h2
  rw [moveStraight, if_neg (by tauto)]
  by_cases hdp : 0 < d
  · simp only [if_pos hdp, hi, clamp500_of_nonneg hfl, one_mul]
  · simp only [if_neg hdp, hi, MoveOutcome.drive.injEq, DriveCommand.mk.injEq]
    rw [wrap16_eq_self (by omega) (by omega), clamp500_neg_of_nonneg hfl]
    refine ⟨⟨by ring, trivial⟩, trivial⟩

/-- C2 witness: the amended MoveStraight theorem applied at distance -200,
speed 50 mm/s: velocity -50, radius 32767, duration 4 seconds. -/
theorem moveStraight_drive_spec_witness :
    (-200 : ℤ) ≠ 0 ∧ (0 : ℚ) < 50 ∧ (50 : ℚ) ≤ 32767 ∧
    moveStraight (-200) 50 = MoveOutcome.drive ⟨-50, 32767⟩ 4 := by
  refine ⟨by norm_num, by norm_num, by norm_num, ?_⟩
  have h := moveStraight_drive_spec (-200) 50 (by norm_num) (by norm_num) (by norm_num)
  rw [h]
  norm_num [absQ, min_def]

/-- C7: for every Spin call with non-zero angle and non-zero angular speed,
the blocking duration is |angle / angularSpeed| seconds, the issued radius
is +1 for a positive angle and -1 for a negative one, and the issued
velocity is the fixed magnitude 100, independent of the commanded speed. -/
theorem spin_spec (ang sp : ℚ) (h1 : ang ≠ 0) (h2 : sp ≠ 0) :
    spin ang sp = MoveOutcome.drive ⟨100, if 0 < ang then 1 else -1⟩ (absQ (ang / sp)) := by
  rw [spin, if_neg (by tauto)]

/-- C7 witness: spin(angle=1000, speed=10) issues radius +1 at the fixed
velocity 100 and computes a blocking duration of 100 seconds. -/
theorem spin_spec_witness :
    (1000 : ℚ) ≠ 0 ∧ (10 : ℚ) ≠ 0 ∧
    spin 1000 10 = MoveOutcome.drive ⟨100, 1⟩ 100 := by
  refine ⟨by norm_num, by norm_num, ?_⟩
  have h := spin_spec 1000 10 (by norm_num) (by norm_num)
  rw [h]
  norm_num [absQ]

/-- C3: whichever completion event fires first (duration expiry, caller
cancellation or deadline, driver shutdown), every MoveStraight or Spin
call whose drive write succeeded issues a stop command as its final wire
command before returning; the zero-argument early exits also end in a
stop. -/
theorem motion_always_stops (d : ℤ) (s : ℚ) (ang sp : ℚ) (cause : CompletionCause) :
    (motionTrace (moveStraight d s) true cause).getLast? = some WireCmd.stop ∧
    (motionTrace (spin ang sp) true cause).getLast? = some WireCmd.stop := by
  refine ⟨?_, ?_⟩
  · cases moveStraight d s <;> cases cause <;> rfl
  · cases spin ang sp <;> cases cause <;> rfl

/-- A decoded reading value: boolean, integer, float64 (modelled as a
rational) or string, mirroring the `any` values placed in the Go reading
map. -/
inductive RVal
  | b (v : Bool)
  | i (v : ℤ)
  | f (v : ℚ)
  | s (v : String)
deriving DecidableEq, Repr

/-- Lookup of a key in the reading map, modelled as an insertion-ordered
association list (all inserted keys are distinct). -/
def lookupKey : List (String × RVal) → String → Option RVal
  | [], _ => none
  | (q, v) :: rest, k => if q = k then some v else lookupKey rest k

/-- The fixed ordered list of queried packet IDs (unnamed/part_005,
`sensorPackets`); its order defines the positional layout of the response. -/
def sensorPackets : List ℕ :=
  [7, 8, 9, 10, 11, 12, 13, 14, 15, 17, 18, 19, 20, 21, 22, 23, 24, 25,
   26, 27, 28, 29, 30, 31, 34, 35, 39, 40]

/-- The byte segment of the response at a position (missing positions give
the empty segment; the Go code would panic instead, so theorems about
malformed segments are read on well-sized data). -/
def segAt (data : List (List ℕ)) (idx : ℕ) : List ℕ := data.getD idx []

/-- First byte of the segment at a position (`data[idx][0]`). -/
def bAt (data : List (List ℕ)) (idx : ℕ) : ℕ := (segAt data idx).getD 0 0

/-- Big-endian unsigned 16-bit value of the segment at a position
(`binary.BigEndian.Uint16(data[idx])`). -/
def u16At (data : List (List ℕ)) (idx : ℕ) : ℕ :=
  256 * (segAt data idx).getD 0 0 + (segAt data idx).getD 1 0

/-- Signed 16-bit reinterpretation of the big-endian value at a position
(`int16(binary.BigEndian.Uint16(data[idx]))`). -/
def i16At (data : List (List ℕ)) (idx : ℕ) : ℤ :=
  if u16At data idx < 32768 then (u16At data idx : ℤ) else (u16At data idx : ℤ) - 65536

/-- Signed 8-bit reinterpretation of a byte (`int(int8(b))`). -/
def i8val (n : ℕ) : ℤ := if n < 128 then (n : ℤ) else (n : ℤ) - 256

/-- The charging-state enumeration strings indexed by packet 21's value. -/
def chargingStates : List String :=
  ["not_charging", "reconditioning", "full_charging", "trickle_charging",
   "waiting", "charging_fault"]

/-- The OI-mode enumeration strings indexed by packet 35's value. -/
def oiModes : List String := ["off", "passive", "safe", "full"]

/-- The reading map built by `viamRoombaSensor.Readings`
(unnamed/part_005) from a response with one byte segment per requested
packet, in the insertion order of the Go code. The `battery_percent`
entry is inserted only when the decoded capacity is strictly positive. -/
def readingsCore (data : List (List ℕ)) : List (String × RVal) :=
  [("bump_right", .b ((bAt data 0 &&& 1) != 0)),
   ("bump_left", .b ((bAt data 0 &&& 2) != 0)),
   ("wheel_drop_right", .b ((bAt data 0 &&& 4) != 0)),
   ("wheel_drop_left", .b ((bAt data 0 &&& 8) != 0)),
   ("wall", .b ((bAt data 1 &&& 1) != 0)),
   ("cliff_left", .b ((bAt data 2 &&& 1) != 0)),
   ("cliff_front_left", .b ((bAt data 3 &&& 1) != 0)),
   ("cliff_front_right", .b ((bAt data 4 &&& 1) != 0)),
   ("cliff_right", .b ((bAt data 5 &&& 1) != 0)),
   ("virtual_wall", .b ((bAt data 6 &&& 1) != 0)),
   ("overcurrent_side_brush", .b ((bAt data 7 &&& 1) != 0)),
   ("overcurrent_main_brush", .b ((bAt data 7 &&& 4) != 0)),
   ("overcurrent_right_wheel", .b ((bAt data 7 &&& 8) != 0)),
   ("overcurrent_left_wheel", .b ((bAt data 7 &&& 16) != 0)),
   ("dirt_detect", .i (bAt data 8 : ℤ)),
   ("ir_opcode", .i (bAt data 9 : ℤ)),
   ("button_clean", .b ((bAt data 10 &&& 1) != 0)),
   ("button_spot", .b ((bAt data 10 &&& 2) != 0)),
   ("button_dock", .b ((bAt data 10 &&& 4) != 0)),
   ("button_minute", .b ((bAt data 10 &&& 8) != 0)),
   ("button_hour", .b ((bAt data 10 &&& 16) != 0)),
   ("button_day", .b ((bAt data 10 &&& 32) != 0)),
   ("button_schedule", .b ((bAt data 10 &&& 64) != 0)),
   ("button_clock", .b ((bAt data 10 &&& 128) != 0)),
   ("distance_mm", .i (i16At data 11)),
   ("angle_deg", .i (i16At data 12)),
   ("charging_state",
     .s (if bAt data 13 < chargingStates.length
         then chargingStates.getD (bAt data 13) "" else "unknown")),
   ("voltage_mv", .i (u16At data 14 : ℤ)),
   ("current_ma", .i (i16At data 15)),
   ("temperature_c", .i (i8val (bAt data 16))),
   ("battery_charge_mah", .i (u16At data 17 : ℤ)),
   ("battery_capacity_mah", .i (u16At data 18 : ℤ))] ++
  (if 0 < u16At data 18 then
    [("battery_percent", .f ((u16At data 17 : ℚ) / (u16At data 18 : ℚ) * 100))]
   else []) ++
  [("wall_signal", .i (u16At data 19 : ℤ)),
   ("cliff_left_signal", .i (u16At data 20 : ℤ)),
   ("cliff_front_left_signal", .i (u16At data 21 : ℤ)),
   ("cliff_front_right_signal", .i (u16At data 22 : ℤ)),
   ("cliff_right_signal", .i (u16At data 23 : ℤ)),
   ("charger_internal", .b ((bAt data 24 &&& 1) != 0)),
   ("charger_homebase", .b ((bAt data 24 &&& 2) != 0)),
   ("oi_mode",
     .s (if bAt data 25 < oiModes.length
         then oiModes.getD (bAt data 25) "" else "unknown")),
   ("requested_velocity_mms", .i (i16At data 26)),
   ("requested_radius_mm", .i (i16At data 27))]

/-- `viamRoombaSensor.Readings` after a successful query: reject a
response whose segment count differs from the requested packet count,
otherwise decode the full reading map. -/
def readings (data : List (List ℕ)) : Except String (List (String × RVal)) :=
  if data.length ≠ sensorPackets.length then
    Except.error "unexpected sensor data count"
  else
    Except.ok (readingsCore data)

/-- The charging-state string the spec assigns to each raw byte value. -/
def chargingStateName : ℕ → String
  | 0 => "not_charging"
  | 1 => "reconditioning"
  | 2 => "full_charging"
  | 3 => "trickle_charging"
  | 4 => "waiting"
  | 5 => "charging_fault"
  | _ => "unknown"

lemma readings_ok_elim {data : List (List ℕ)} {m : List (String × RVal)}
    (h : readings data = Except.ok m) : m = readingsCore data := by
  by_cases hl : data.length ≠ sensorPackets.length
  · rw [readings, if_pos hl] at h; cases h
  · rw [readings, if_neg hl] at h
    injection h with h'
    exact h'.symm

lemma chargingStates_getD (c : ℕ) :
    (if c < chargingStates.length then chargingStates.getD c "" else "unknown") =
      chargingStateName c := by
  match c with
  | 0 => rfl
  | 1 => rfl
  | 2 => rfl
  | 3 => rfl
  | 4 => rfl
  | 5 => rfl
  | n + 6 =>
    rw [if_neg (by simp [chargingStates])]
    rfl

/-- C9: when the decoded segment count differs from the number of
requested packet IDs, Readings returns an error and no reading map; a
reading map is only ever produced from a response with exactly one
segment per requested packet. -/
theorem readings_count_mismatch (data : List (List ℕ)) :
    (data.length ≠ sensorPackets.length → ∃ e, readings data = Except.error e) ∧
    (∀ m, readings data = Except.ok m → data.length = sensorPackets.length) := by
  constructor
  · intro h
    exact ⟨_, by rw [readings, if_pos h]⟩
  · intro m hm
    by_contra h
    rw [readings, if_pos h] at hm
    cases hm

/-- C9 witness: the empty response errors, and a 28-segment response has
the requested count. -/
theorem readings_count_mismatch_witness :
    (∃ e, readings ([] : List (List ℕ)) = Except.error e) ∧
    (List.replicate 28 ([0] : List ℕ)).length = sensorPackets.length :=
  ⟨(readings_count_mismatch []).1 (by decide),
   (readings_count_mismatch (List.replicate 28 [0])).2
     (readingsCore (List.replicate 28 [0])) rfl⟩

/-- C4: in every successfully decoded reading map, `battery_percent` is
present exactly when the decoded capacity (packet 26) is strictly
positive, and then equals charge / capacity * 100. -/
theorem battery_percent_spec (data : List (List ℕ)) (m : List (String × RVal))
    (h : readings data = Except.ok m) :
    lookupKey m "battery_percent" =
      if 0 < u16At data 18 then
        some (RVal.f ((u16At data 17 : ℚ) / (u16At data 18 : ℚ) * 100))
      else none := by
  rw [readings_ok_elim h]
  by_cases hc : 0 < u16At data 18
  · simp only [readingsCore, if_pos hc]
    rfl
  · simp only [readingsCore, if_neg hc]
    rfl

/-- Synthetic response: charge 50, capacity 0. -/
def dataCap0 : List (List ℕ) :=
  [[0], [0], [0], [0], [0], [0], [0], [0], [0], [0], [0], [0, 0], [0, 0],
   [0], [0, 0], [0, 0], [0], [0, 50], [0, 0], [0, 0], [0, 0], [0, 0],
   [0, 0], [0, 0], [0], [0], [0, 0], [0, 0]]

/-- Synthetic response: charge 50, capacity 200. -/
def dataB : List (List ℕ) :=
  [[0], [0], [0], [0], [0], [0], [0], [0], [0], [0], [0], [0, 0], [0, 0],
   [0], [0, 0], [0, 0], [0], [0, 50], [0, 200], [0, 0], [0, 0], [0, 0],
   [0, 0], [0, 0], [0], [0], [0, 0], [0, 0]]

/-- C4 witness: capacity 0 omits the key; charge 50 with capacity 200
yields 25. -/
theorem battery_percent_spec_witness :
    lookupKey (readingsCore dataCap0) "battery_percent" = none ∧
    lookupKey (readingsCore dataB) "battery_percent" = some (RVal.f 25) := by
  constructor
  · have h := battery_percent_spec dataCap0 (readingsCore dataCap0) rfl
    rw [h]
    decide
  · have h := battery_percent_spec dataB (readingsCore dataB) rfl
    rw [h]
    norm_num [u16At, segAt, dataB]

/-- C8: in every successfully decoded reading map, the charging-state
byte (packet 21) values 0 through 5 map to not_charging, reconditioning,
full_charging, trickle_charging, waiting, charging_fault in that order,
and every other value maps to "unknown". -/
theorem charging_state_decode (data : List (List ℕ)) (m : List (String × RVal))
    (h : readings data = Except.ok m) :
    lookupKey m "charging_state" = some (RVal.s (chargingStateName (bAt data 13))) := by
  rw [readings_ok_elim h, ← chargingStates_getD (bAt data 13)]
  rfl

/-- Synthetic response with charging-state byte 5. -/
def dataCS5 : List (List ℕ) :=
  [[0], [0], [0], [0], [0], [0], [0], [0], [0], [0], [0], [0, 0], [0, 0],
   [5], [0, 0], [0, 0], [0], [0, 0], [0, 0], [0, 0], [0, 0], [0, 0],
   [0, 0], [0, 0], [0], [0], [0, 0], [0, 0]]

/-- Synthetic response with charging-state byte 6 (out of range). -/
def dataCS6 : List (List ℕ) :=
  [[0], [0], [0], [0], [0], [0], [0], [0], [0], [0], [0], [0, 0], [0, 0],
   [6], [0, 0], [0, 0], [0], [0, 0], [0, 0], [0, 0], [0, 0], [0, 0],
   [0, 0], [0, 0], [0], [0], [0, 0], [0, 0]]

/-- C8 witness: byte value 5 decodes to charging_fault and byte value 6
decodes to unknown. -/
theorem charging_state_decode_witness :
    lookupKey (readingsCore dataCS5) "charging_state" = some (RVal.s "charging_fault") ∧
    lookupKey (readingsCore dataCS6) "charging_state" = some (RVal.s "unknown") := by
  constructor
  · have h := charging_state_decode dataCS5 (readingsCore dataCS5) rfl
    rw [h]
    rfl
  · have h := charging_state_decode dataCS6 (readingsCore dataCS6) rfl
    rw [h]
    rfl

/-- C6: for every SetVelocity call with non-zero linear.Y and non-zero
angular.Z, the issued radius is (velocity * 180) / (angular * pi) clamped
to [-2000, 2000] (truncated to an integer by the int16 conversion), where
velocity is the clamped linear speed; the issued radius always lies in
[-2000, 2000]. -/
theorem setVelocity_radius_spec (w : ℤ) (lin a : ℚ) (hl : lin ≠ 0) (ha : a ≠ 0) :
    setVelocity w lin a =
      VelOutcome.drive ⟨linVel16 lin,
        truncQ (max (-2000) (min 2000 (((linVel16 lin : ℚ) * 180) / (a * mathPi))))⟩ ∧
    ∀ r, (setVelocity w lin a).rad = some r → -2000 ≤ r ∧ r ≤ 2000 := by
  have hxl : (-2000 : ℚ) ≤ max (-2000) (min 2000 (((linVel16 lin : ℚ) * 180) / (a * mathPi))) :=
    le_max_left _ _
  have hxu : max (-2000) (min 2000 (((linVel16 lin : ℚ) * 180) / (a * mathPi))) ≤ 2000 :=
    max_le (by norm_num) (min_le_left _ _)
  have htl : (-2000 : ℤ) ≤ truncQ (max (-2000) (min 2000 (((linVel16 lin : ℚ) * 180) / (a * mathPi)))) :=
    le_truncQ (by exact_mod_cast hxl)
  have htu : truncQ (max (-2000) (min 2000 (((linVel16 lin : ℚ) * 180) / (a * mathPi)))) ≤ 2000 :=
    truncQ_le (by exact_mod_cast hxu)
  have heq : setVelocity w lin a =
      VelOutcome.drive ⟨linVel16 lin,
        truncQ (max (-2000) (min 2000 (((linVel16 lin : ℚ) * 180) / (a * mathPi))))⟩ := by
    rw [setVelocity, if_neg (by tauto), if_neg (by tauto)]
    simp only [if_neg ha]
    rw [int16ofFloat, wrap16_eq_self (by omega) (by omega)]
  refine ⟨heq, ?_⟩
  intro r hr
  rw [heq] at hr
  simp only [VelOutcome.rad, Option.some.injEq] at hr
  omega

/-- C6 witness: width 235, linear 100 mm/s, angular 90 deg/s issues
velocity 100 and radius 63 = trunc((100 * 180) / (90 * pi)), inside
[-2000, 2000]. -/
theorem setVelocity_radius_spec_witness :
    (100 : ℚ) ≠ 0 ∧ (90 : ℚ) ≠ 0 ∧
    setVelocity 235 100 90 = VelOutcome.drive ⟨100, 63⟩ := by
  refine ⟨by norm_num, by norm_num, ?_⟩
  have h := (setVelocity_radius_spec 235 100 90 (by norm_num) (by norm_num)).1
  rw [h]
  have hv : linVel16 (100 : ℚ) = 100 := by
    norm_num [linVel16, int16ofFloat, truncQ, wrap16, clamp500]
  rw [hv]
  have hx : max (-2000 : ℚ) (min 2000 (((100 : ℤ) : ℚ) * 180 / (90 * mathPi))) =
      5066549580791808000 / 79585174710319950 := by
    rw [mathPi]
    norm_num [min_def, max_def]
  rw [hx]
  norm_num [truncQ]

/-- A registry entry: the identity of the shared connection object and its
reference count (`roombaConn.refs`, a Go int). -/
structure ConnEntry where
  connId : ℕ
  refs : ℤ
deriving DecidableEq, Repr

/-- Read of the `connections` map, modelled as an association list with
distinct keys. -/
def lookupPort : List (String × ConnEntry) → String → Option ConnEntry
  | [], _ => none
  | (q, e) :: rest, p => if q = p then some e else lookupPort rest p

/-- In-place mutation of the shared entry of a port (`conn.refs++` and the
like act on the struct stored in the map). -/
def updatePort : List (String × ConnEntry) → String → ConnEntry → List (String × ConnEntry)
  | [], _, _ => []
  | (q, v) :: rest, p, e => if q = p then (q, e) :: rest else (q, v) :: updatePort rest p e

/-- Removal of a port's entry (`delete(connections, serialPort)`). -/
def erasePort : List (String × ConnEntry) → String → List (String × ConnEntry)
  | [], _ => []
  | (q, v) :: rest, p => if q = p then rest else (q, v) :: erasePort rest p

/-- The process-wide connection registry: the `connections` map plus a
counter handing out identities for newly opened connections. -/
structure Registry where
  entries : List (String × ConnEntry)
  nextId : ℕ
deriving DecidableEq, Repr

/-- `acquireConn` (flush_linux.go): an existing entry has its reference
count incremented and its connection returned; otherwise a new connection
is opened (`openOk` models MakeRoomba and the START command succeeding),
stored with count 1 and returned; on open failure the registry is
unchanged and no connection is returned. -/
def acquireConn (reg : Registry) (port : String) (openOk : Bool) : Option ℕ × Registry :=
  match lookupPort reg.entries port with
  | some e =>
    (some e.connId, ⟨updatePort reg.entries port ⟨e.connId, e.refs + 1⟩, reg.nextId⟩)
  | none =>
    if openOk then
      (some reg.nextId, ⟨(port, ⟨reg.nextId, 1⟩) :: reg.entries, reg.nextId + 1⟩)
    else (none, reg)

/-- `releaseConn` (flush_linux.go): decrement the named entry's reference
count, removing the entry when the count reaches zero or below; an
unknown port is a no-op. -/
def releaseConn (reg : Registry) (port : String) : Registry :=
  match lookupPort reg.entries port with
  | none => reg
  | some e =>
    if e.refs - 1 ≤ 0 then ⟨erasePort reg.entries port, reg.nextId⟩
    else ⟨updatePort reg.entries port ⟨e.connId, e.refs - 1⟩, reg.nextId⟩

/-- One registry operation: an acquire (with its open success bit) or a
release. -/
inductive RegOp
  | acquire (port : String) (openOk : Bool)
  | release (port : String)

/-- Apply one registry operation. -/
def regStep (reg : Registry) : RegOp → Registry
  | .acquire p ok => (acquireConn reg p ok).2
  | .release p => releaseConn reg p

/-- Run a sequence of registry operations from the empty registry. -/
def regRun (ops : List RegOp) : Registry := ops.foldl regStep ⟨[], 0⟩

/-- Registry well-formedness: ports are distinct and every stored entry
has a strictly positive reference count. -/
def RegInv (reg : Registry) : Prop :=
  (reg.entries.map Prod.fst).Nodup ∧ ∀ pe ∈ reg.entries, 1 ≤ pe.2.refs

lemma lookupPort_cons_self (l : List (String × ConnEntry)) (p : String) (e : ConnEntry) :
    lookupPort ((p, e) :: l) p = some e := by
  simp [lookupPort]

lemma updatePort_cons_self (l : List (String × ConnEntry)) (p : String) (e e' : ConnEntry) :
    updatePort ((p, e) :: l) p e' = (p, e') :: l := by
  simp [updatePort]

lemma erasePort_cons_self (l : List (String × ConnEntry)) (p : String) (e : ConnEntry) :
    erasePort ((p, e) :: l) p = l := by
  simp [erasePort]

lemma lookupPort_eq_none {l : List (String × ConnEntry)} {p : String} :
    lookupPort l p = none ↔ p ∉ l.map Prod.fst := by
  induction l with
  | nil => simp [lookupPort]
  | cons a rest ih =>
    obtain ⟨q, v⟩ := a
    by_cases hq : q = p
    · subst hq; simp [lookupPort]
    · simp [lookupPort, hq, ih, Ne.symm hq]

lemma lookupPort_mem {l : List (String × ConnEntry)} {p : String} {e : ConnEntry}
    (h : lookupPort l p = some e) : (p, e) ∈ l := by
  induction l with
  | nil => cases h
  | cons a rest ih =>
    obtain ⟨q, v⟩ := a
    by_cases hq : q = p
    · subst hq
      rw [lookupPort_cons_self] at h
      injection h with h'
      subst h'
      exact List.mem_cons_self _ _
    · rw [lookupPort, if_neg hq] at h
      exact List.mem_cons_of_mem _ (ih h)

lemma mem_updatePort {l : List (String × ConnEntry)} {p : String} {e : ConnEntry}
    {x : String × ConnEntry} (hx : x ∈ updatePort l p e) : x ∈ l ∨ x = (p, e) := by
  induction l with
  | nil => cases hx
  | cons a rest ih =>
    obtain ⟨q, v⟩ := a
    by_cases hq : q = p
    · subst hq
      rw [updatePort_cons_self] at hx
      rcases List.mem_cons.mp hx with h | h
      · exact Or.inr h
      · exact Or.inl (List.mem_cons_of_mem _ h)
    · rw [updatePort, if_neg hq] at hx
      rcases List.mem_cons.mp hx with h | h
      · exact Or.inl (h ▸ List.mem_cons_self _ _)
      · rcases ih h with h' | h'
        · exact Or.inl (List.mem_cons_of_mem _ h')
        · exact Or.inr h'

lemma mem_erasePort {l : List (String × ConnEntry)} {p : String}
    {x : String × ConnEntry} (hx : x ∈ erasePort l p) : x ∈ l := by
  induction l with
  | nil => cases hx
  | cons a rest ih =>
    obtain ⟨q, v⟩ := a
    by_cases hq : q = p
    · subst hq
      rw [erasePort_cons_self] at hx
      exact List.mem_cons_of_mem _ hx
    · rw [erasePort, if_neg hq] at hx
      rcases List.mem_cons.mp hx with h | h
      · exact h ▸ List.mem_cons_self _ _
      · exact List.mem_cons_of_mem _ (ih h)

lemma updatePort_map_fst (l : List (String × ConnEntry)) (p : String) (e : ConnEntry) :
    (updatePort l p e).map Prod.fst = l.map Prod.fst := by
  induction l with
  | nil => rfl
  | cons a rest ih =>
    obtain ⟨q, v⟩ := a
    by_cases hq : q = p
    · subst hq; rw [updatePort_cons_self]; simp
    · rw [updatePort, if_neg hq]
      simp [ih]

lemma erasePort_map_fst_sublist (l : List (String × ConnEntry)) (p : String) :
    ((erasePort l p).map Prod.fst).Sublist (l.map Prod.fst) := by
  induction l with
  | nil => simp [erasePort]
  | cons a rest ih =>
    obtain ⟨q, v⟩ := a
    by_cases hq : q = p
    · subst hq
      rw [erasePort_cons_self]
      exact List.sublist_cons_self _ _
    · rw [erasePort, if_neg hq]
      simpa using ih.cons₂ q

lemma lookupPort_updatePort {l : List (String × ConnEntry)} {p : String} {v : ConnEntry}
    (h : lookupPort l p = some v) (e : ConnEntry) :
    lookupPort (updatePort l p e) p = some e := by
  induction l with
  | nil => cases h
  | cons a rest ih =>
    obtain ⟨q, w⟩ := a
    by_cases hq : q = p
    · subst hq
      rw [updatePort_cons_self, lookupPort_cons_self]
    · rw [lookupPort, if_neg hq] at h
      rw [updatePort, if_neg hq, lookupPort, if_neg hq]
      exact ih h

lemma lookupPort_erasePort {l : List (String × ConnEntry)} {p : String}
    (hnd : (l.map Prod.fst).Nodup) : lookupPort (erasePort l p) p = none := by
  induction l with
  | nil => rfl
  | cons a rest ih =>
    obtain ⟨q, v⟩ := a
    simp only [List.map_cons, List.nodup_cons] at hnd
    by_cases hq : q = p
    · subst hq
      rw [erasePort_cons_self]
      exact lookupPort_eq_none.mpr hnd.1
    · rw [erasePort, if_neg hq, lookupPort, if_neg hq]
      exact ih hnd.2

lemma acquireConn_of_some {reg : Registry} {p : String} {e : ConnEntry} (ok : Bool)
    (h : lookupPort reg.entries p = some e) :
    acquireConn reg p ok =
      (some e.connId, ⟨updatePort reg.entries p ⟨e.connId, e.refs + 1⟩, reg.nextId⟩) := by
  simp [acquireConn, h]

lemma acquireConn_of_none_true {reg : Registry} {p : String}
    (h : lookupPort reg.entries p = none) :
    acquireConn reg p true =
      (some reg.nextId, ⟨(p, ⟨reg.nextId, 1⟩) :: reg.entries, reg.nextId + 1⟩) := by
  simp [acquireConn, h]

lemma acquireConn_of_none_false {reg : Registry} {p : String}
    (h : lookupPort reg.entries p = none) :
    acquireConn reg p false = (none, reg) := by
  simp [acquireConn, h]

lemma releaseConn_of_none {reg : Registry} {p : String}
    (h : lookupPort reg.entries p = none) : releaseConn reg p = reg := by
  simp [releaseConn, h]

lemma releaseConn_of_some_le {reg : Registry} {p : String} {e : ConnEntry}
    (h : lookupPort reg.entries p = some e) (hr : e.refs - 1 ≤ 0) :
    releaseConn reg p = ⟨erasePort reg.entries p, reg.nextId⟩ := by
  simp [releaseConn, h, hr]

lemma releaseConn_of_some_gt {reg : Registry} {p : String} {e : ConnEntry}
    (h : lookupPort reg.entries p = some e) (hr : ¬e.refs - 1 ≤ 0) :
    releaseConn reg p = ⟨updatePort reg.entries p ⟨e.connId, e.refs - 1⟩, reg.nextId⟩ := by
  simp [releaseConn, h, hr]

lemma regInv_step {reg : Registry} (hinv : RegInv reg) (op : RegOp) :
    RegInv (regStep reg op) := by
  obtain ⟨hnd, href⟩ := hinv
  cases op with
  | acquire p ok =>
    show RegInv (acquireConn reg p ok).2
    cases hl : lookupPort reg.entries p with
    | some e =>
      rw [acquireConn_of_some ok hl]
      refine ⟨by rw [updatePort_map_fst]; exact hnd, ?_⟩
      intro pe hpe
      rcases mem_updatePort hpe with hmem | heq
      · exact href pe hmem
      · have h1 : 1 ≤ e.refs := href (p, e) (lookupPort_mem hl)
        subst heq
        simpa using by omega
    | none =>
      cases ok with
      | true =>
        rw [acquireConn_of_none_true hl]
        refine ⟨?_, ?_⟩
        · simp only [List.map_cons, List.nodup_cons]
          exact ⟨lookupPort_eq_none.mp hl, hnd⟩
        · intro pe hpe
          rcases List.mem_cons.mp hpe with h | h
          · subst h; simp
          · exact href pe h
      | false =>
        rw [acquireConn_of_none_false hl]
        exact ⟨hnd, href⟩
  | release p =>
    show RegInv (releaseConn reg p)
    cases hl : lookupPort reg.entries p with
    | none => rw [releaseConn_of_none hl]; exact ⟨hnd, href⟩
    | some e =>
      by_cases hr : e.refs - 1 ≤ 0
      · rw [releaseConn_of_some_le hl hr]
        refine ⟨(erasePort_map_fst_sublist _ _).nodup hnd, ?_⟩
        intro pe hpe
        exact href pe (mem_erasePort hpe)
      · rw [releaseConn_of_some_gt hl hr]
        refine ⟨by rw [updatePort_map_fst]; exact hnd, ?_⟩
        intro pe hpe
        rcases mem_updatePort hpe with hmem | heq
        · exact href pe hmem
        · subst heq
          simpa using by omega

lemma regInv_run (ops : List RegOp) : RegInv (regRun ops) := by
  have key : ∀ reg, RegInv reg → RegInv (ops.foldl regStep reg) := by
    induction ops with
    | nil => intro reg h; exact h
    | cons op rest ih => intro reg h; exact ih _ (regInv_step h op)
  exact key _ ⟨List.nodup_nil, by intro pe hpe; cases hpe⟩

/-- C5: from a registry with no entry for a port, two acquireConn calls
for that port return the same connection identity and leave its reference
count at 2; the first releaseConn leaves the entry with count 1, the
second removes it; and releaseConn on a port with no entry is a no-op. -/
theorem acquire_release_refcount (reg : Registry) (port : String)
    (h : lookupPort reg.entries port = none) :
    (acquireConn reg port true).1 = some reg.nextId ∧
    (acquireConn (acquireConn reg port true).2 port true).1 = some reg.nextId ∧
    lookupPort (acquireConn (acquireConn reg port true).2 port true).2.entries port
      = some ⟨reg.nextId, 2⟩ ∧
    lookupPort (releaseConn
        (acquireConn (acquireConn reg port true).2 port true).2 port).entries port
      = some ⟨reg.nextId, 1⟩ ∧
    lookupPort (releaseConn (releaseConn
        (acquireConn (acquireConn reg port true).2 port true).2 port) port).entries port
      = none ∧
    releaseConn reg port = reg := by
  have h1 : acquireConn reg port true =
      (some reg.nextId, ⟨(port, ⟨reg.nextId, 1⟩) :: reg.entries, reg.nextId + 1⟩) := by
    simp [acquireConn, h]
  have h2 : acquireConn (⟨(port, ⟨reg.nextId, 1⟩) :: reg.entries, reg.nextId + 1⟩ : Registry)
      port true =
      (some reg.nextId, ⟨(port, ⟨reg.nextId, 2⟩) :: reg.entries, reg.nextId + 1⟩) := by
    simp only [acquireConn, lookupPort_cons_self, updatePort_cons_self]
    norm_num
  have h3 : releaseConn (⟨(port, ⟨reg.nextId, 2⟩) :: reg.entries, reg.nextId + 1⟩ : Registry)
      port = ⟨(port, ⟨reg.nextId, 1⟩) :: reg.entries, reg.nextId + 1⟩ := by
    simp only [releaseConn, lookupPort_cons_self, updatePort_cons_self]
    norm_num
  have h4 : releaseConn (⟨(port, ⟨reg.nextId, 1⟩) :: reg.entries, reg.nextId + 1⟩ : Registry)
      port = ⟨reg.entries, reg.nextId + 1⟩ := by
    simp only [releaseConn, lookupPort_cons_self, erasePort_cons_self]
    norm_num
  have h6 : releaseConn reg port = reg := by
    simp [releaseConn, h]
  rw [h1]
  refine ⟨rfl, ?_, ?_, ?_, ?_, h6⟩
  · rw [h2]
  · rw [h2, lookupPort_cons_self]
  · rw [h2, h3, lookupPort_cons_self]
  · rw [h2, h3, h4]
    exact h

/-- C5 witness: the refcount theorem applied to the empty registry and
port "p0". -/
theorem acquire_release_refcount_witness :
    lookupPort (Registry.mk [] 0).entries "p0" = none ∧
    (acquireConn (Registry.mk [] 0) "p0" true).1 = some 0 ∧
    lookupPort (acquireConn (acquireConn (Registry.mk [] 0) "p0" true).2 "p0" true).2.entries
      "p0" = some ⟨0, 2⟩ := by
  refine ⟨rfl, ?_, ?_⟩
  · exact (acquire_release_refcount ⟨[], 0⟩ "p0" rfl).1
  · exact (acquire_release_refcount ⟨[], 0⟩ "p0" rfl).2.2.1

/-- C10: after every sequence of acquireConn/releaseConn operations
starting from the empty registry, every stored entry has a reference
count of at least 1, and a releaseConn call removes an entry exactly when
that entry's count was 1 (so removal happens exactly at the release that
brings the count to zero or below). -/
theorem registry_refs_invariant (ops : List RegOp) :
    (∀ pe ∈ (regRun ops).entries, 1 ≤ pe.2.refs) ∧
    (∀ p e, lookupPort (regRun ops).entries p = some e →
      (lookupPort (releaseConn (regRun ops) p).entries p = none ↔ e.refs = 1)) := by
  obtain ⟨hnd, href⟩ := regInv_run ops
  refine ⟨href, ?_⟩
  intro p e hl
  have he1 : 1 ≤ e.refs := href (p, e) (lookupPort_mem hl)
  by_cases hr : e.refs - 1 ≤ 0
  · rw [releaseConn_of_some_le hl hr]
    have herase : lookupPort (erasePort (regRun ops).entries p) p = none :=
      lookupPort_erasePort hnd
    simp only [herase, true_iff]
    omega
  · rw [releaseConn_of_some_gt hl hr]
    have hupd : lookupPort (updatePort (regRun ops).entries p ⟨e.connId, e.refs - 1⟩) p
        = some ⟨e.connId, e.refs - 1⟩ := lookupPort_updatePort hl _
    simp only [hupd]
    constructor
    · intro hc; cases hc
    · intro hc; omega

/-- C10 witness: the invariant applied after a single successful acquire
of port "a": the stored count is 1 and the next release removes the
entry. -/
theorem registry_refs_invariant_witness :
    ((1 : ℤ) ≤ (ConnEntry.mk 0 1).refs) ∧
    lookupPort (releaseConn (regRun [RegOp.acquire "a" true]) "a").entries "a" = none := by
  constructor
  · exact (registry_refs_invariant [RegOp.acquire "a" true]).1 ("a", ⟨0, 1⟩)
      (by simp [regRun, regStep, acquireConn, lookupPort])
  · exact ((registry_refs_invariant [RegOp.acquire "a" true]).2 "a" ⟨0, 1⟩ rfl).mpr rfl

end ViamRoomba
